import Mathlib

/-!
# Verification of the DGFit grain-population integration engine

Shallow embedding of the DGFit repository (files `DGFit.py`, `DustModel.py`,
`dgfit/dustgrains.py`) over exact rational arithmetic.  Machine floats are
modelled by `ℚ` for finite values; IEEE non-finite results (NaN, ±inf),
which in the Python code arise only from division by zero on the inputs the
claims exercise, are modelled by `Option ℚ` with `none` standing for any
non-finite float.
-/

/-! ## Trapezoidal size-distribution integral

`dustgrains.py`, `DustGrains.eff_grain_props`, lines 432–449:
  deltas = 0.5 * (sizes[1:] - sizes[:-1])
  result[i] = sum(deltas * (kernel[:-1]*dist[:-1] + kernel[1:]*dist[1:]))
The numpy slice expression is written as a structural recursion over the
three parallel lists (sizes, size distribution, per-size kernel). -/
def trap : List ℚ → List ℚ → List ℚ → ℚ
  | a1 :: a2 :: as, d1 :: d2 :: ds, k1 :: k2 :: ks =>
      1/2 * (a2 - a1) * (k1 * d1 + k2 * d2) + trap (a2 :: as) (d2 :: ds) (k2 :: ks)
  | _, _, _ => 0

/-- Trapezoidal integral with the kernel given pointwise as a function of the
grain radius (the form used by the abundance integrations, whose kernels are
closed-form expressions of the size). -/
def trapK (sizes dist : List ℚ) (f : ℚ → ℚ) : ℚ :=
  trap sizes dist (sizes.map f)

/-! ## Arithmetic on possibly non-finite float values -/

/-- numpy float division: a zero divisor produces a non-finite value
(±inf or NaN), modelled as `none`. -/
def npDiv (a b : ℚ) : Option ℚ :=
  if b = 0 then none else some (a / b)

/-- Addition with NaN/inf absorption. -/
def oadd : Option ℚ → Option ℚ → Option ℚ
  | some a, some b => some (a + b)
  | _, _ => none

/-- Subtraction with NaN/inf absorption. -/
def osub : Option ℚ → Option ℚ → Option ℚ
  | some a, some b => some (a - b)
  | _, _ => none

/-- Multiplication with NaN/inf absorption. -/
def omul : Option ℚ → Option ℚ → Option ℚ
  | some a, some b => some (a * b)
  | _, _ => none

/-- Division with NaN/inf absorption and zero-divisor degeneracy. -/
def odiv : Option ℚ → Option ℚ → Option ℚ
  | some a, some b => npDiv a b
  | _, _ => none

/-- Square of a possibly non-finite value. -/
def osq (x : Option ℚ) : Option ℚ := omul x x

/-- np.sum over a vector of possibly non-finite values. -/
def osum (l : List (Option ℚ)) : Option ℚ :=
  l.foldl oadd (some 0)

/-! ## The likelihood evaluator `lnprobsed` (`DGFit.py`, lines 31–82) -/

/-- The observational data object.  `DGFit.py` reads it through the
module-level name `obsdata`; per-element dictionaries are modelled as
functions from the element name.  `total_abundance[name][0]` is the
abundance ceiling; `depletions[name]` is the `(target, uncertainty)` pair. -/
structure ObsDataM where
  alnhi : List ℚ
  fit_depletions : Bool
  total_abundance : String → ℚ
  depletions : String → ℚ × ℚ
  fit_ir_emission : Bool
  ir_emission : List ℚ
  ir_emission_indxs : List Nat
  ir_emission_uncs : List ℚ
  fit_scat_param : Bool
  scat_albedo : List ℚ
  scat_indxs : List Nat
  scat_albedo_unc : List ℚ

/-- The 4-tuple `(cabs, csca, natoms, emission)` that `lnprobsed` unpacks
from `DustModel.eff_grain_props()` after `set_size_dist(params)`.  `natoms`
is a dictionary keyed by element name, modelled as an association list in
iteration order. -/
structure ModelOutput where
  cabs : List ℚ
  csca : List ℚ
  natoms : List (String × ℚ)
  emission : List ℚ
deriving Repr

/-- Result of one evaluation of `lnprobsed`: a finite log-probability, the
soft rejection `-np.inf`, or the process-terminating `exit()` call on line
80 of `DGFit.py`. -/
inductive LnpResult where
  | val (q : ℚ)
  | neginf
  | procExit
deriving DecidableEq, Repr

/-- The depletion block, `DGFit.py` lines 55–61: iterate over the `natoms`
dictionary; return `-np.inf` (here `none`-like constructor `overflow`) as
soon as an element exceeds 1.5× its abundance ceiling; otherwise, whenever
an element exceeds its depletion target, *assign* (not add) its squared
residual into `lnp_dep`.  The accumulator is an `Option ℚ` so that a zero
depletion uncertainty degenerates to a non-finite value as in the code. -/
inductive DepRes where
  | overflow
  | ok (v : Option ℚ)
deriving DecidableEq

def depLoop (obs : ObsDataM) : List (String × ℚ) → Option ℚ → DepRes
  | [], acc => .ok acc
  | (nm, n) :: rest, acc =>
      if n > 3/2 * obs.total_abundance nm then .overflow
      else if n > (obs.depletions nm).1 then
        depLoop obs rest ((npDiv (n - (obs.depletions nm).1) (obs.depletions nm).2).map (· ^ 2))
      else depLoop obs rest acc

/-- `lnprobsed(params, ObsData, DustModel)` from `DGFit.py` lines 31–82.

The Python function takes the observation object as its second positional
argument (`ObsData`, here `ObsDataArg`) but its body reads the module-level
global `obsdata` instead; both are kept in the signature to reflect this.
The dust model is modelled as the function `dustModel` from the parameter
vector to the `(cabs, csca, natoms, emission)` tuple, standing for
`set_size_dist(params)` followed by `eff_grain_props()`. -/
def lnprobsedM (params : List ℚ) (ObsDataArg : ObsDataM)
    (dustModel : List ℚ → ModelOutput) (obsdata : ObsDataM) : LnpResult :=
  -- lines 34–36: reject any negative size-distribution entry
  if params.any (fun p => decide (p < 0)) then .neginf
  else
    let r := dustModel params
    let cext := List.zipWith (· + ·) r.cabs r.csca
    let dust_alnhi := cext.map (fun x => 1086/1000 * x)
    -- line 49: extinction term with 10% relative uncertainty
    let lnp_alnhi := omul (some (-(1/2)))
      (osum (List.zipWith
        (fun ao du => osq (npDiv (ao - du) (1/10 * ao))) obsdata.alnhi dust_alnhi))
    -- lines 53–61: depletion block
    match (if obsdata.fit_depletions then depLoop obsdata r.natoms (some 0) else .ok (some 0)) with
    | .overflow => .neginf
    | .ok dep0 =>
      let lnp_dep := omul dep0 (some (-(1/2)))
      -- lines 64–66: IR emission term
      let lnp_emission :=
        if obsdata.fit_ir_emission then
          omul (some (-(1/2)))
            (osum (List.zipWith
              (fun (p : ℚ × ℚ) u => osq (npDiv (p.1 - p.2) u))
              (List.zip obsdata.ir_emission
                (obsdata.ir_emission_indxs.map (fun i => r.emission.getD i 0)))
              obsdata.ir_emission_uncs))
        else some 0
      -- lines 69–72: albedo term; `csca/cext` is an unguarded numpy division
      let lnp_albedo :=
        if obsdata.fit_scat_param then
          let albedo := List.zipWith npDiv r.csca cext
          omul (some (-(1/2)))
            (osum (List.zipWith
              (fun (p : ℚ × Option ℚ) u => osq (odiv (osub (some p.1) p.2) (some u)))
              (List.zip obsdata.scat_albedo
                (obsdata.scat_indxs.map (fun i => albedo.getD i none)))
              obsdata.scat_albedo_unc))
        else some 0
      -- lines 75–82: combine; a non-finite total hits `exit()` on line 80
      match oadd (oadd (oadd lnp_alnhi lnp_dep) lnp_emission) lnp_albedo with
      | none => .procExit
      | some v => .val v

/-! ## C5: negative parameter entries are hard-rejected -/

/-- C5: for every input parameter vector containing at least one strictly
negative entry, `lnprobsed` returns negative infinity, regardless of the
values of all other entries and of the observation set (`DGFit.py`
lines 34–36, the check precedes every other computation). -/
theorem C5_negative_param_rejected
    (params : List ℚ) (obsArg : ObsDataM) (dm : List ℚ → ModelOutput)
    (g : ObsDataM) (h : ∃ p ∈ params, p < 0) :
    lnprobsedM params obsArg dm g = .neginf := by
  have hany : params.any (fun p => decide (p < 0)) = true := by
    rcases h with ⟨p, hp, hneg⟩
    exact List.any_eq_true.mpr ⟨p, hp, decide_eq_true hneg⟩
  unfold lnprobsedM
  simp [hany]

/-- A default observation set used by concrete witnesses. -/
def obs0 : ObsDataM :=
  { alnhi := [1]
    fit_depletions := false
    total_abundance := fun _ => 100
    depletions := fun _ => (1, 1)
    fit_ir_emission := false
    ir_emission := []
    ir_emission_indxs := []
    ir_emission_uncs := []
    fit_scat_param := false
    scat_albedo := []
    scat_indxs := []
    scat_albedo_unc := [] }

/-- A dust model stub returning fixed finite grain properties. -/
def dm0 : List ℚ → ModelOutput :=
  fun _ => { cabs := [1], csca := [1], natoms := [("C", 1)], emission := [] }

theorem C5_negative_param_rejected_witness :
    (∃ p ∈ [(-1 : ℚ), 2], p < 0) ∧
      lnprobsedM [(-1 : ℚ), 2] obs0 dm0 obs0 = .neginf :=
  ⟨⟨-1, by decide, by norm_num⟩,
    C5_negative_param_rejected [(-1 : ℚ), 2] obs0 dm0 obs0 ⟨-1, by decide, by norm_num⟩⟩

/-! ## C10: the result does not depend on the `ObsData` argument -/

/-- C10: the value returned by `lnprobsed` is independent of its explicitly
passed `ObsData` parameter: the body reads the module-level `obsdata`
global, never the parameter (`DGFit.py` line 31 vs. lines 49–72), so two
calls differing only in that argument agree. -/
theorem C10_obsdata_arg_ignored
    (params : List ℚ) (obsArg1 obsArg2 : ObsDataM)
    (dm : List ℚ → ModelOutput) (g : ObsDataM) :
    lnprobsedM params obsArg1 dm g = lnprobsedM params obsArg2 dm g := rfl

/-! ## C1: non-finite total log-probability terminates the process -/

/-- Observation set with a zero-valued observed extinction point: the
relative-uncertainty division `(alnhi - dust)/(0.10*alnhi)` in line 49 of
`DGFit.py` then divides by zero, making the extinction term non-finite. -/
def obsC1 : ObsDataM := { obs0 with alnhi := [0] }

/-- C1 (code evaluation at the failing input): when the summed
log-probability is non-finite, `lnprobsed` does not return negative
infinity; it reaches the `exit()` call on line 80 of `DGFit.py` and
terminates the process. -/
theorem C1_nonfinite_lnp_terminates :
    lnprobsedM [1] obsC1 dm0 obsC1 = .procExit ∧
      lnprobsedM [1] obsC1 dm0 obsC1 ≠ .neginf := by
  constructor <;>
    norm_num [lnprobsedM, obsC1, obs0, dm0, osum, oadd, omul, osq, npDiv] <;>
    exact fun h => LnpResult.noConfusion h

/-! ## C2: the depletion term overwrites instead of accumulating -/

/-- Observation set for the depletion-term evaluation: depletion fitting
on, ceilings far away, targets and uncertainties equal to one. -/
def obsC2 : ObsDataM := { obs0 with fit_depletions := true }

/-- Dust model stub producing two elements that both exceed their
depletion targets (counts 3 and 4 against targets 1). -/
def dmC2 : List ℚ → ModelOutput :=
  fun _ => { cabs := [0], csca := [0], natoms := [("A", 3), ("B", 4)], emission := [] }

/-- Follows the claim's wording (spec §4.4 step 5): the depletion
log-likelihood sum accumulates, over all elements whose count exceeds the
observed target, the squared residual `((count - target)/uncertainty)^2`;
elements at or below target contribute zero. -/
def depSumClaimed (obs : ObsDataM) (natoms : List (String × ℚ)) : ℚ :=
  (natoms.map (fun p =>
    if p.2 > (obs.depletions p.1).1 then
      ((p.2 - (obs.depletions p.1).1) / (obs.depletions p.1).2) ^ 2
    else 0)).sum

/-- C2 (code evaluation at the failing input): with two elements exceeding
their targets (squared residuals 4 and 9), line 60 of `DGFit.py` assigns
`lnp_dep = (...)**2` instead of accumulating, so only the last element's
residual survives: the total is `-50 + -(1/2)*9 = -109/2` (the `-50` is
the extinction term), not the claimed `-50 + -(1/2)*(4 + 9)`. -/
theorem C2_depletion_term_overwrites :
    depLoop obsC2 [("A", 3), ("B", 4)] (some 0) = .ok (some 9) ∧
      lnprobsedM [1] obsC2 dmC2 obsC2 = .val (-109/2) ∧
      depSumClaimed obsC2 [("A", 3), ("B", 4)] = 13 ∧
      (-109/2 : ℚ) ≠ -50 + -(1/2) * 13 := by
  refine ⟨?_, ?_, ?_, by norm_num⟩
  · norm_num [depLoop, obsC2, obs0, npDiv]
  · norm_num [lnprobsedM, depLoop, obsC2, obs0, dmC2, osum, oadd, omul, osq, npDiv]
  · norm_num [depSumClaimed, obsC2, obs0]

/-! ## C9: the 1.5× abundance ceiling check -/

/-- Observation set with a unit abundance ceiling for every element and
depletion fitting disabled. -/
def obsC9 : ObsDataM := { obs0 with total_abundance := fun _ => 1 }

/-- Dust model stub with an element at 4 atoms, strictly above 1.5× the
unit ceiling. -/
def dmC9 : List ℚ → ModelOutput :=
  fun _ => { cabs := [0], csca := [0], natoms := [("C", 4)], emission := [] }

/-- C9 counterexample: an aggregated count strictly above 1.5× the ceiling
does not make `lnprobsed` return negative infinity when depletion fitting
is disabled — the ceiling check of `DGFit.py` line 56 sits inside the
`if obsdata.fit_depletions:` block opened on line 54. -/
theorem C9_ceiling_check_gated_counterexample :
    (4 : ℚ) > 3/2 * obsC9.total_abundance "C" ∧
      obsC9.fit_depletions = false ∧
      lnprobsedM [1] obsC9 dmC9 obsC9 = .val (-50) ∧
      lnprobsedM [1] obsC9 dmC9 obsC9 ≠ .neginf := by
  refine ⟨by norm_num [obsC9, obs0], by norm_num [obsC9, obs0], ?_, ?_⟩ <;>
    norm_num [lnprobsedM, obsC9, obs0, dmC9, osum, oadd, omul, osq, npDiv] <;>
    exact fun h => LnpResult.noConfusion h

/-- The depletion loop hits the `return -np.inf` of line 57 as soon as any
element of the dictionary exceeds 1.5× its ceiling, whatever the
accumulator value. -/
theorem depLoop_overflow_of_mem (obs : ObsDataM) :
    ∀ (l : List (String × ℚ)),
      (∃ p ∈ l, p.2 > 3/2 * obs.total_abundance p.1) →
      ∀ acc, depLoop obs l acc = .overflow := by
  intro l
  induction l with
  | nil => rintro ⟨p, hp, _⟩; exact absurd hp (List.not_mem_nil p)
  | cons hd tl ih =>
    rintro ⟨p, hp, hgt⟩ acc
    rcases List.mem_cons.mp hp with heq | hmem
    · subst heq
      unfold depLoop
      simp [hgt]
    · unfold depLoop
      by_cases hhd : hd.2 > 3/2 * obs.total_abundance hd.1
      · simp [hhd]
      · simp only [hhd, if_false]
        by_cases hdep : hd.2 > (obs.depletions hd.1).1 <;>
          simp [hdep, ih ⟨p, hmem, hgt⟩]

/-- When no element exceeds 1.5× its ceiling the depletion loop finishes
normally, returning some accumulator value. -/
theorem depLoop_ok_of_no_overflow (obs : ObsDataM) :
    ∀ (l : List (String × ℚ)),
      (∀ p ∈ l, ¬ p.2 > 3/2 * obs.total_abundance p.1) →
      ∀ acc, ∃ v, depLoop obs l acc = .ok v := by
  intro l
  induction l with
  | nil => exact fun _ acc => ⟨acc, rfl⟩
  | cons hd tl ih =>
    intro h acc
    have hhd := h hd (List.mem_cons_self hd tl)
    have htl : ∀ p ∈ tl, ¬ p.2 > 3/2 * obs.total_abundance p.1 :=
      fun p hp => h p (List.mem_cons_of_mem hd hp)
    unfold depLoop
    by_cases hdep : hd.2 > (obs.depletions hd.1).1 <;>
      simpa [hhd, hdep] using ih htl _

/-- C9 amended: with depletion fitting enabled, an aggregated count
strictly above 1.5× the element's ceiling forces negative infinity, while
if every element sits at or below 1.5× its ceiling (the boundary value
included) and the parameters are non-negative, `lnprobsed` never returns
negative infinity (`DGFit.py` lines 54–58). -/
theorem C9_ceiling_check_amended
    (params : List ℚ) (obsArg : ObsDataM) (dm : List ℚ → ModelOutput)
    (g : ObsDataM) (hfit : g.fit_depletions = true) :
    ((∃ p ∈ (dm params).natoms, p.2 > 3/2 * g.total_abundance p.1) →
        lnprobsedM params obsArg dm g = .neginf) ∧
      ((∀ p ∈ params, 0 ≤ p) →
        (∀ q ∈ (dm params).natoms, q.2 ≤ 3/2 * g.total_abundance q.1) →
        lnprobsedM params obsArg dm g ≠ .neginf) := by
  constructor
  · intro hover
    by_cases hany : params.any (fun p => decide (p < 0)) = true
    · unfold lnprobsedM; simp [hany]
    · have hloop := depLoop_overflow_of_mem g (dm params).natoms hover (some 0)
      unfold lnprobsedM
      simp only [Bool.not_eq_true] at hany
      simp [hany, hfit, hloop]
  · intro hpos hbelow
    have hany : params.any (fun p => decide (p < 0)) = false := by
      rw [List.any_eq_false]
      intro p hp
      simpa using not_lt.mpr (hpos p hp)
    have hno : ∀ q ∈ (dm params).natoms, ¬ q.2 > 3/2 * g.total_abundance q.1 :=
      fun q hq => not_lt.mpr (hbelow q hq)
    obtain ⟨v, hloop⟩ := depLoop_ok_of_no_overflow g (dm params).natoms hno (some 0)
    unfold lnprobsedM
    simp only [hany, Bool.false_eq_true, if_false, hfit, if_true, hloop]
    cases h2 : oadd (oadd (oadd _ _) _) _ <;> simp

/-- Dust model stub with an element at 200 atoms, strictly above 1.5× the
ceiling of 100 used by `obsC2`. -/
def dmOver : List ℚ → ModelOutput :=
  fun _ => { cabs := [0], csca := [0], natoms := [("C", 200)], emission := [] }

theorem C9_ceiling_check_amended_witness :
    lnprobsedM [1] obsC2 dmOver obsC2 = .neginf ∧
      lnprobsedM [1] obsC2 dmC2 obsC2 ≠ .neginf := by
  constructor
  · exact (C9_ceiling_check_amended [1] obsC2 dmOver obsC2 rfl).1
      ⟨("C", 200), by simp [dmOver], by norm_num [obsC2, obs0]⟩
  · refine (C9_ceiling_check_amended [1] obsC2 dmC2 obsC2 rfl).2 ?_ ?_
    · intro p hp
      rw [List.mem_singleton] at hp
      subst hp
      norm_num
    · intro q hq
      rcases List.mem_cons.mp hq with h | h
      · subst h; norm_num [obsC2, obs0]
      · rw [List.mem_singleton] at h; subst h; norm_num [obsC2, obs0]

/-! ## C6: the trapezoidal quadrature formula -/

/-- The spec's indexed quadrature formula (§4.1):
result = Σ over i from 0 to n-2 of
0.5 * (a[i+1] - a[i]) * (kernel[i]*dist[i] + kernel[i+1]*dist[i+1]). -/
def trapSpec (sizes dist kern : List ℚ) : ℚ :=
  ∑ i in Finset.range (sizes.length - 1),
    1/2 * (sizes.getD (i+1) 0 - sizes.getD i 0) *
      (kern.getD i 0 * dist.getD i 0 + kern.getD (i+1) 0 * dist.getD (i+1) 0)

theorem trapSpec_cons (a1 a2 : ℚ) (as : List ℚ) (d1 d2 : ℚ) (ds : List ℚ)
    (k1 k2 : ℚ) (ks : List ℚ) :
    trapSpec (a1 :: a2 :: as) (d1 :: d2 :: ds) (k1 :: k2 :: ks) =
      1/2 * (a2 - a1) * (k1 * d1 + k2 * d2) +
        trapSpec (a2 :: as) (d2 :: ds) (k2 :: ks) := by
  unfold trapSpec
  simp only [List.length_cons, Nat.add_sub_cancel]
  rw [Finset.sum_range_succ']
  simp only [List.getD_cons_succ, List.getD_cons_zero]
  ring

/-- The vectorized numpy quadrature of `dustgrains.py` lines 432–449 equals
the spec's indexed sum whenever the three arrays have a common length. -/
theorem trap_eq_trapSpec :
    ∀ (sizes dist kern : List ℚ), dist.length = sizes.length →
      kern.length = sizes.length →
      trap sizes dist kern = trapSpec sizes dist kern := by
  intro sizes
  induction sizes with
  | nil =>
    intro dist kern hd hk
    rw [List.length_nil, List.length_eq_zero] at hd hk
    subst hd; subst hk
    simp [trap, trapSpec]
  | cons a1 rest ih =>
    intro dist kern hd hk
    cases rest with
    | nil =>
      match dist, kern, hd, hk with
      | [d1], [k1], _, _ => simp [trap, trapSpec]
    | cons a2 as =>
      match dist, kern, hd, hk with
      | d1 :: d2 :: ds, k1 :: k2 :: ks, hd, hk =>
        have hd2 : (d2 :: ds).length = (a2 :: as).length := by
          simpa using hd
        have hk2 : (k2 :: ks).length = (a2 :: as).length := by
          simpa using hk
        rw [trapSpec_cons]
        unfold trap
        rw [ih (d2 :: ds) (k2 :: ks) hd2 hk2]

/-- C6: the size-distribution integral computed in
`DustGrains.eff_grain_props` (lines 432–449) equals the claim's indexed
trapezoidal sum for every common-length size grid, distribution and
kernel, and on the worked example SizeGrid = [0.001, 0.01, 0.1],
SizeDistribution = [1, 1, 1], kernel = [1, 2, 3] it evaluates to exactly
0.2385 = 477/2000. -/
theorem C6_trapezoid_quadrature
    (sizes dist kern : List ℚ) (hd : dist.length = sizes.length)
    (hk : kern.length = sizes.length) (hn : 2 ≤ sizes.length) :
    trap sizes dist kern = trapSpec sizes dist kern ∧
      trap [1/1000, 1/100, 1/10] [1, 1, 1] [1, 2, 3] = 477/2000 := by
  refine ⟨trap_eq_trapSpec sizes dist kern hd hk, ?_⟩
  norm_num [trap]

theorem C6_trapezoid_quadrature_witness :
    trap [1/1000, 1/100, 1/10] [1, 1, 1] [1, 2, 3] =
        trapSpec [1/1000, 1/100, 1/10] [1, 1, 1] [1, 2, 3] ∧
      trap [1/1000, 1/100, 1/10] [1, 1, 1] [1, 2, 3] = 477/2000 :=
  C6_trapezoid_quadrature [1/1000, 1/100, 1/10] [1, 1, 1] [1, 2, 3]
    rfl rfl (by norm_num)

/-! ## The per-composition grain object (`dgfit/dustgrains.py`)

Per-size optical-property tables are stored per wavelength (one kernel
list over sizes per wavelength point): the numpy code loops over the
wavelength axis and slices columns over the size axis, so the transposed
storage makes each loop iteration one `trap` call. -/

structure DustGrainsQ where
  name : String
  sizes : List ℚ
  size_dist : List ℚ
  col_den_constant : List ℚ
  cabs : List (List ℚ)
  csca : List (List ℚ)
  scat_a_cext : List (List ℚ)
  scat_a_csca : List (List ℚ)
  scat_g : List (List ℚ)
  scat_g_csca : List (List ℚ)
  ISRF_field_strengths : List ℚ
  emission : List (List (List ℚ))
  RF_strength : ℚ

/-- Effective absorption cross section (`dustgrains.py` lines 436–442). -/
def DustGrainsQ.effcabs (d : DustGrainsQ) : List ℚ :=
  d.cabs.map (fun kern => trap d.sizes d.size_dist kern)

/-- Effective scattering cross section (lines 443–449). -/
def DustGrainsQ.effcsca (d : DustGrainsQ) : List ℚ :=
  d.csca.map (fun kern => trap d.sizes d.size_dist kern)

/-- Mantle thickness for a-C:H-Themis, line 464: `mantle = 5 * 1e-7`. -/
def mantleACH : ℚ := 5/10^7

/-- Mantle thickness for aSil-2-Themis, line 546: `mantle = 2.5 * 1e-7`. -/
def mantleASil : ℚ := 25/10^8

/-- Lines 465–466: `best_index` is the index of the largest size at or
below the mantle thickness, plus one; the size grid is ascending (built
sorted by `from_files`), so this is the count of sizes at or below the
mantle thickness. -/
def bestIndex (sizes : List ℚ) (mantle : ℚ) : Nat :=
  sizes.countP (fun r => decide (r ≤ mantle))

/-- a-C:H-Themis abundance integration, lines 463–543: a trapezoidal sum
over the first `best_index` sizes with the pure-mantle kernel
`r³·cdc·1.6/1.3`, plus trapezoidal sums over the sizes from `best_index`
on with the mantle-shell kernel `(r³-(r-mantle)³)·cdc·1.6/1.3` and the
core kernel `(r-mantle)³·cdc`.  (The slice `deltas[:best_index-1]` of the
first sum and the slice `deltas[best_index:]` of the other two leave the
trapezoid interval between indices `best_index-1` and `best_index`
uncovered, which the `take`/`drop` decomposition reproduces.) -/
def natomsACH (sizes dist : List ℚ) (cdc : ℚ) : ℚ :=
  let bi := bestIndex sizes mantleACH
  trap (sizes.take bi) (dist.take bi)
      ((sizes.take bi).map (fun r => r ^ 3 * cdc * (16/13)))
    + trap (sizes.drop bi) (dist.drop bi)
        ((sizes.drop bi).map (fun r => (r ^ 3 - (r - mantleACH) ^ 3) * cdc * (16/13)))
    + trap (sizes.drop bi) (dist.drop bi)
        ((sizes.drop bi).map (fun r => (r - mantleACH) ^ 3 * cdc))

/-- aSil-2-Themis abundance integration, lines 545–592: element index 3
(carbon, the mantle material) gets the mantle-shell kernel with the
1.6/2.7 density-ratio correction over *all* sizes; every other element
gets the core kernel `(r-mantle)³·cdc[i]` over *all* sizes.  There is no
branch on size versus mantle thickness. -/
def natomsASil (sizes dist : List ℚ) (cdc : List ℚ) (i : Nat) : ℚ :=
  if i = 3 then
    trap sizes dist
      (sizes.map (fun r => (r ^ 3 - (r - mantleASil) ^ 3) * cdc.getD 3 0 * (16/27)))
  else
    trap sizes dist (sizes.map (fun r => (r - mantleASil) ^ 3 * cdc.getD i 0))

/-- Abundance integration for every other composition, lines 594–609:
volume-weighted kernel `r³·cdc[i]`. -/
def natomsGeneric (sizes dist : List ℚ) (cdci : ℚ) : ℚ :=
  trap sizes dist (sizes.map (fun r => r ^ 3 * cdci))

/-- Per-element atom count (lines 457–609), dispatching on the
composition name exactly as the source does. -/
def DustGrainsQ.natoms (d : DustGrainsQ) (i : Nat) : ℚ :=
  if d.name = "a-C:H-Themis" then
    natomsACH d.sizes d.size_dist (d.col_den_constant.getD i 0)
  else if d.name = "aSil-2-Themis" then
    natomsASil d.sizes d.size_dist d.col_den_constant i
  else natomsGeneric d.sizes d.size_dist (d.col_den_constant.getD i 0)

/-! ### Radiation-field emission interpolation (lines 710–724) -/

/-- Elementwise sum of two per-size × per-wavelength matrices. -/
def matAdd (a b : List (List ℚ)) : List (List ℚ) :=
  List.zipWith (List.zipWith (· + ·)) a b

/-- Elementwise difference. -/
def matSub (a b : List (List ℚ)) : List (List ℚ) :=
  List.zipWith (List.zipWith (fun x y => x - y)) a b

/-- Elementwise scalar multiple. -/
def matSmul (c : ℚ) (a : List (List ℚ)) : List (List ℚ) :=
  a.map (List.map (fun x => c * x))

/-- `scipy.interpolate.interp1d(x, emission, axis=0)` evaluated at `v`:
piecewise-linear interpolation between the bracketing field-strength
nodes, applied elementwise to the tabulated emission matrices. -/
def interpCube : List ℚ → List (List (List ℚ)) → ℚ → List (List ℚ)
  | x1 :: x2 :: xs, y1 :: y2 :: ys, v =>
      if v ≤ x2 then matAdd y1 (matSmul ((v - x1) / (x2 - x1)) (matSub y2 y1))
      else interpCube (x2 :: xs) (y2 :: ys) v
  | _, [y], _ => y
  | _, _, _ => []

/-- `DustGrains.interpol_emission` (lines 710–724): clamp the requested
field strength to the tabulated range, recording a clamped value in
`RF_strength`, then linearly interpolate the emission cube. -/
def DustGrainsQ.interpol_emission (d : DustGrainsQ) (isrf : ℚ) :
    DustGrainsQ × List (List ℚ) :=
  let x := d.ISRF_field_strengths
  if isrf < x.headD 0 then
    ({ d with RF_strength := x.headD 0 }, interpCube x d.emission (x.headD 0))
  else if isrf > x.getLastD 0 then
    ({ d with RF_strength := x.getLastD 0 }, interpCube x d.emission (x.getLastD 0))
  else (d, interpCube x d.emission isrf)

/-- Integrated IR emission spectrum (lines 614–628): interpolate the
emission cube at the stored field strength, then integrate each
wavelength's per-size kernel against the size distribution. -/
def DustGrainsQ.effemission (d : DustGrainsQ) : List ℚ :=
  ((d.interpol_emission d.RF_strength).2).map
    (fun kern => trap d.sizes d.size_dist kern)

/-! ### Scattering parameters (lines 631–705) -/

/-- Extinction cross section integrated on the albedo grid (lines 640–646). -/
def DustGrainsQ.effscat_a_cext (d : DustGrainsQ) : List ℚ :=
  d.scat_a_cext.map (fun kern => trap d.sizes d.size_dist kern)

/-- Scattering cross section integrated on the albedo grid (lines 647–653). -/
def DustGrainsQ.effscat_a_csca (d : DustGrainsQ) : List ℚ :=
  d.scat_a_csca.map (fun kern => trap d.sizes d.size_dist kern)

/-- Per-composition albedo (lines 655–662): zero-denominator entries are
guarded to zero. -/
def DustGrainsQ.albedo (d : DustGrainsQ) : List ℚ :=
  List.zipWith (fun ce cs => if ce = 0 then 0 else cs / ce)
    d.effscat_a_cext d.effscat_a_csca

/-- The asymmetry numerator (lines 673–688): kernel `g·csca` per size. -/
def DustGrainsQ.effgnum (d : DustGrainsQ) : List ℚ :=
  (List.zipWith (fun grow crow => List.zipWith (· * ·) grow crow)
      d.scat_g d.scat_g_csca).map
    (fun kern => trap d.sizes d.size_dist kern)

/-- Scattering cross section integrated on the g grid (lines 689–695). -/
def DustGrainsQ.effscat_g_csca (d : DustGrainsQ) : List ℚ :=
  d.scat_g_csca.map (fun kern => trap d.sizes d.size_dist kern)

/-- Per-composition asymmetry parameter (lines 697–704), with the same
zero-denominator guard as the albedo. -/
def DustGrainsQ.effg (d : DustGrainsQ) : List ℚ :=
  List.zipWith (fun den num => if den = 0 then 0 else num / den)
    d.effscat_g_csca d.effgnum

/-! ## C4: the core-mantle abundance corrections -/

/-- The claim's per-size abundance kernel for a-C:H-Themis: at or below
the mantle thickness, pure mantle material with the 1.6/1.3 density-ratio
correction; above it, the mantle-shell and core contributions. -/
def kernACHClaim (cdc : ℚ) (r : ℚ) : ℚ :=
  if r ≤ mantleACH then r ^ 3 * cdc * (16/13)
  else (r ^ 3 - (r - mantleACH) ^ 3) * cdc * (16/13) + (r - mantleACH) ^ 3 * cdc

/-- Core kernel for aSil-2-Themis (elements of the silicate core). -/
def kernASilCore (cdci : ℚ) (r : ℚ) : ℚ := (r - mantleASil) ^ 3 * cdci

/-- Mantle-shell kernel for aSil-2-Themis (carbon, element index 3). -/
def kernASilShell (cdc3 : ℚ) (r : ℚ) : ℚ :=
  (r ^ 3 - (r - mantleASil) ^ 3) * cdc3 * (16/27)

/-- Claim-side definition, following the claim's (and spec §4.1's) words
for aSil-2-Themis: every grain size at or below the mantle thickness is
treated as pure mantle material (the a-C mantle contains only carbon,
with its density-ratio correction), and every larger size splits into a
core contribution `(r-mantle)³` for the silicate elements and a
mantle-shell contribution `r³-(r-mantle)³` for carbon. -/
def natomsASilClaimed (sizes dist : List ℚ) (cdc : List ℚ) (i : Nat) : ℚ :=
  trapK sizes dist (fun r =>
    if r ≤ mantleASil then
      (if i = 3 then r ^ 3 * cdc.getD 3 0 * (16/27) else 0)
    else
      (if i = 3 then kernASilShell (cdc.getD 3 0) r else kernASilCore (cdc.getD i 0) r))

/-- C4 counterexample: for aSil-2-Themis on a size grid lying entirely at
or below the mantle thickness (sizes 1e-8 and 2e-8 cm against a mantle of
2.5e-7 cm, unit size distribution, unit column-density constants), the
code's Mg (element 0) atom count is strictly negative — the code applies
the core kernel `(r-mantle)³ < 0` at every size, with no pure-mantle
branch — whereas under the claim's treatment size ≤ mantle contributes a
pure-mantle (hence non-negative, here zero) amount. -/
theorem C4_counterexample :
    natomsASil [1/10^8, 2/10^8] [1, 1] [1, 1, 1, 1] 0 < 0 ∧
      natomsASilClaimed [1/10^8, 2/10^8] [1, 1] [1, 1, 1, 1] 0 = 0 ∧
      natomsASil [1/10^8, 2/10^8] [1, 1] [1, 1, 1, 1] 0 ≠
        natomsASilClaimed [1/10^8, 2/10^8] [1, 1] [1, 1, 1, 1] 0 := by
  refine ⟨?_, ?_, ?_⟩ <;>
    norm_num [natomsASil, natomsASilClaimed, trapK, trap, mantleASil,
      kernASilCore, kernASilShell]

/-- For an ascending size grid, every size among the first `bestIndex`
ones is at or below the mantle thickness. -/
theorem mem_take_bestIndex_le (m : ℚ) :
    ∀ (l : List ℚ), l.Sorted (· ≤ ·) →
      ∀ x ∈ l.take (bestIndex l m), x ≤ m := by
  intro l
  induction l with
  | nil => intro _ x hx; simp [bestIndex] at hx
  | cons a tl ih =>
    intro hs x hx
    rw [List.sorted_cons] at hs
    obtain ⟨ha, hs2⟩ := hs
    by_cases ham : a ≤ m
    · rw [bestIndex, List.countP_cons_of_pos _ _ (by simpa using ham),
        List.take_succ_cons] at hx
      rcases List.mem_cons.mp hx with h | h
      · subst h; exact ham
      · exact ih hs2 x h
    · rw [bestIndex, List.countP_cons_of_neg _ _ (by simpa using ham)] at hx
      have hz : tl.countP (fun r => decide (r ≤ m)) = 0 := by
        rw [List.countP_eq_zero]
        intro b hb
        simp only [decide_eq_true_eq]
        exact fun hbm => ham ((ha b hb).trans hbm)
      rw [hz] at hx
      simp at hx
/-- For an ascending size grid, every size from index `bestIndex` on is
strictly above the mantle thickness. -/
theorem mem_drop_bestIndex_gt (m : ℚ) :
    ∀ (l : List ℚ), l.Sorted (· ≤ ·) →
      ∀ x ∈ l.drop (bestIndex l m), m < x := by
  intro l
  induction l with
  | nil => intro _ x hx; simp [bestIndex] at hx
  | cons a tl ih =>
    intro hs x hx
    rw [List.sorted_cons] at hs
    obtain ⟨ha, hs2⟩ := hs
    by_cases ham : a ≤ m
    · rw [bestIndex, List.countP_cons_of_pos _ _ (by simpa using ham),
        List.drop_succ_cons] at hx
      exact ih hs2 x hx
    · have hz : (a :: tl).countP (fun r => decide (r ≤ m)) = 0 := by
        rw [List.countP_eq_zero]
        intro b hb
        simp only [decide_eq_true_eq]
        rcases List.mem_cons.mp hb with h | h
        · subst h; exact ham
        · exact fun hbm => ham ((ha b h).trans hbm)
      rw [bestIndex, hz, List.drop_zero] at hx
      rcases List.mem_cons.mp hx with h | h
      · subst h; exact not_le.mp ham
      · exact lt_of_lt_of_le (not_le.mp ham) (ha x h)

/-- The trapezoidal integral is additive in a pointwise kernel. -/
theorem trapK_add (f g : ℚ → ℚ) :
    ∀ (s d : List ℚ),
      trapK s d (fun r => f r + g r) = trapK s d f + trapK s d g := by
  intro s
  induction s with
  | nil => intro d; simp [trapK, trap]
  | cons a1 rest ih =>
    intro d
    cases rest with
    | nil => cases d <;> simp [trapK, trap]
    | cons a2 as =>
      cases d with
      | nil => simp [trapK, trap]
      | cons d1 dtl =>
        cases dtl with
        | nil => simp [trapK, trap]
        | cons d2 ds =>
          have h1 := ih (d2 :: ds)
          simp only [trapK, List.map_cons] at h1 ⊢
          simp only [trap]
          rw [h1]
          ring

/-- C4 amended: for a-C:H-Themis (ascending size grid), the code's
abundance integral is the trapezoidal integral of the claim's threshold
kernel — pure density-corrected mantle at or below the mantle thickness,
core/shell split above — taken separately over the sizes at or below the
threshold and the sizes above it (the trapezoid interval bridging the two
regimes is omitted by the code's slicing); for aSil-2-Themis there is no
size threshold at all: carbon (element 3) receives the mantle-shell
kernel and every other element the core kernel `(r-mantle)³` at every
size, sizes at or below the mantle thickness included. -/
theorem C4_core_mantle_amended (sizes dist : List ℚ) (cdc : ℚ) (cdcl : List ℚ)
    (hsort : sizes.Sorted (· ≤ ·)) :
    (natomsACH sizes dist cdc =
        trapK (sizes.take (bestIndex sizes mantleACH))
            (dist.take (bestIndex sizes mantleACH)) (kernACHClaim cdc)
          + trapK (sizes.drop (bestIndex sizes mantleACH))
              (dist.drop (bestIndex sizes mantleACH)) (kernACHClaim cdc))
      ∧ (∀ i, i ≠ 3 → natomsASil sizes dist cdcl i =
          trapK sizes dist (kernASilCore (cdcl.getD i 0)))
      ∧ natomsASil sizes dist cdcl 3 =
          trapK sizes dist (kernASilShell (cdcl.getD 3 0)) := by
  refine ⟨?_, ?_, ?_⟩
  · have htake := mem_take_bestIndex_le mantleACH sizes hsort
    have hdrop := mem_drop_bestIndex_gt mantleACH sizes hsort
    have e1 : (sizes.take (bestIndex sizes mantleACH)).map (kernACHClaim cdc) =
        (sizes.take (bestIndex sizes mantleACH)).map
          (fun r => r ^ 3 * cdc * (16/13)) :=
      List.map_congr_left (fun x hx => if_pos (htake x hx))
    have e2 : (sizes.drop (bestIndex sizes mantleACH)).map (kernACHClaim cdc) =
        (sizes.drop (bestIndex sizes mantleACH)).map
          (fun r => (r ^ 3 - (r - mantleACH) ^ 3) * cdc * (16/13) +
            (r - mantleACH) ^ 3 * cdc) :=
      List.map_congr_left (fun x hx => if_neg (not_le.mpr (hdrop x hx)))
    have e3 := trapK_add
      (fun r => (r ^ 3 - (r - mantleACH) ^ 3) * cdc * (16/13))
      (fun r => (r - mantleACH) ^ 3 * cdc)
      (sizes.drop (bestIndex sizes mantleACH))
      (dist.drop (bestIndex sizes mantleACH))
    simp only [natomsACH, trapK] at e3 ⊢
    rw [e1, e2, e3]
    ring
  · intro i hi
    simp only [natomsASil, trapK, hi, if_false, ite_false]
    rfl
  · simp only [natomsASil, trapK, ite_true, if_true]
    rfl

theorem C4_core_mantle_amended_witness :
    ([1/10^7, 2/10^7, 1/10^6] : List ℚ).Sorted (· ≤ ·) ∧
      (natomsACH [1/10^7, 2/10^7, 1/10^6] [1, 1, 1] 1 =
          trapK (([1/10^7, 2/10^7, 1/10^6] : List ℚ).take
              (bestIndex [1/10^7, 2/10^7, 1/10^6] mantleACH))
            (([1, 1, 1] : List ℚ).take
              (bestIndex [1/10^7, 2/10^7, 1/10^6] mantleACH)) (kernACHClaim 1)
          + trapK (([1/10^7, 2/10^7, 1/10^6] : List ℚ).drop
              (bestIndex [1/10^7, 2/10^7, 1/10^6] mantleACH))
            (([1, 1, 1] : List ℚ).drop
              (bestIndex [1/10^7, 2/10^7, 1/10^6] mantleACH)) (kernACHClaim 1)) ∧
      natomsASil [1/10^7, 2/10^7, 1/10^6] [1, 1, 1] [1, 1, 1, 1] 3 =
        trapK [1/10^7, 2/10^7, 1/10^6] [1, 1, 1] (kernASilShell 1) := by
  have hsort : ([1/10^7, 2/10^7, 1/10^6] : List ℚ).Sorted (· ≤ ·) := by
    simp only [List.sorted_cons, List.mem_cons, List.mem_singleton]
    norm_num
  have h := C4_core_mantle_amended [1/10^7, 2/10^7, 1/10^6] [1, 1, 1] 1
    [1, 1, 1, 1] hsort
  exact ⟨hsort, by simpa using h.1, by simpa using h.2.2⟩

/-! ## C8: linearity of every integrated quantity in the size distribution -/

/-- The trapezoidal integral is homogeneous in the size distribution. -/
theorem trap_smul (c : ℚ) :
    ∀ (s d k : List ℚ),
      trap s (d.map (fun x => c * x)) k = c * trap s d k := by
  intro s
  induction s with
  | nil => intro d k; simp [trap]
  | cons a1 rest ih =>
    intro d k
    cases rest with
    | nil => cases d <;> cases k <;> simp [trap]
    | cons a2 as =>
      cases d with
      | nil => simp [trap]
      | cons d1 dtl =>
        cases dtl with
        | nil => cases k <;> simp [trap]
        | cons d2 ds =>
          cases k with
          | nil => simp [trap]
          | cons k1 ktl =>
            cases ktl with
            | nil => simp [trap]
            | cons k2 ks =>
              have h1 := ih (d2 :: ds) (k2 :: ks)
              simp only [List.map_cons] at h1 ⊢
              simp only [trap]
              rw [h1]
              ring

/-- Replacement of the current size distribution by a scalar multiple of
itself (the operation quantified over by the linearity property). -/
def DustGrainsQ.scaleDist (d : DustGrainsQ) (c : ℚ) : DustGrainsQ :=
  { d with size_dist := d.size_dist.map (fun x => c * x) }

/-- Scaling the size distribution leaves the emission interpolation
untouched: it reads only the field-strength nodes, the emission cube and
the stored field strength. -/
theorem interpol_emission_scaleDist (d : DustGrainsQ) (c isrf : ℚ) :
    ((d.scaleDist c).interpol_emission isrf).2 =
      (d.interpol_emission isrf).2 := by
  simp only [DustGrainsQ.interpol_emission, DustGrainsQ.scaleDist]
  split_ifs <;> rfl

/-- C8: for a fixed size grid and fixed per-size kernels, replacing the
size distribution by `c·dist` with `c ≥ 0` scales each integrated
quantity of `DustGrains.eff_grain_props` — cabs, csca, every per-element
atom count, and the emission spectrum — by exactly `c`. -/
theorem C8_scaling_linearity (d : DustGrainsQ) (c : ℚ) (hc : 0 ≤ c) :
    (d.scaleDist c).effcabs = d.effcabs.map (fun x => c * x)
      ∧ (d.scaleDist c).effcsca = d.effcsca.map (fun x => c * x)
      ∧ (∀ i, (d.scaleDist c).natoms i = c * d.natoms i)
      ∧ (d.scaleDist c).effemission = d.effemission.map (fun x => c * x) := by
  refine ⟨?_, ?_, ?_, ?_⟩
  · simp only [DustGrainsQ.effcabs, DustGrainsQ.scaleDist, List.map_map]
    exact List.map_congr_left (fun kern _ => trap_smul c d.sizes d.size_dist kern)
  · simp only [DustGrainsQ.effcsca, DustGrainsQ.scaleDist, List.map_map]
    exact List.map_congr_left (fun kern _ => trap_smul c d.sizes d.size_dist kern)
  · intro i
    simp only [DustGrainsQ.natoms, DustGrainsQ.scaleDist]
    split_ifs
    · simp only [natomsACH, ← List.map_take, ← List.map_drop, trap_smul]
      ring
    · simp only [natomsASil]
      split_ifs <;> rw [trap_smul]
    · simp only [natomsGeneric]
      rw [trap_smul]
  · simp only [DustGrainsQ.effemission]
    rw [show (d.scaleDist c).RF_strength = d.RF_strength from rfl,
      interpol_emission_scaleDist, List.map_map]
    exact List.map_congr_left (fun kern _ =>
      trap_smul c d.sizes d.size_dist kern)

/-- Concrete single-strength grain used by witnesses: two sizes, one
extinction wavelength, one emission wavelength, two field-strength
nodes. -/
def dgW : DustGrainsQ :=
  { name := "astro-silicates"
    sizes := [1, 2]
    size_dist := [1, 1]
    col_den_constant := [1, 1, 1, 1]
    cabs := [[1, 2]]
    csca := [[2, 3]]
    scat_a_cext := [[3, 5]]
    scat_a_csca := [[2, 3]]
    scat_g := [[1, 1]]
    scat_g_csca := [[2, 3]]
    ISRF_field_strengths := [1, 2]
    emission := [[[1, 1]], [[2, 2]]]
    RF_strength := 1
    }

theorem C8_scaling_linearity_witness :
    (0 : ℚ) ≤ 2 ∧
      ((dgW.scaleDist 2).effcabs = dgW.effcabs.map (fun x => 2 * x)
        ∧ (dgW.scaleDist 2).effcsca = dgW.effcsca.map (fun x => 2 * x)
        ∧ (∀ i, (dgW.scaleDist 2).natoms i = 2 * dgW.natoms i)
        ∧ (dgW.scaleDist 2).effemission = dgW.effemission.map (fun x => 2 * x)) :=
  ⟨by norm_num, C8_scaling_linearity dgW 2 (by norm_num)⟩

/-! ## C7: emission interpolation boundaries and exact nodes -/

/-- Two emission matrices with the same row structure (the tabulated
per-size × per-wavelength spectra all share one shape). -/
def sameShape (a b : List (List ℚ)) : Prop :=
  List.Forall₂ (fun r s => r.length = s.length) a b

theorem rowInterp_zero : ∀ (r1 r2 : List ℚ), r1.length = r2.length →
    List.zipWith (· + ·) r1
      ((List.zipWith (fun x y => x - y) r2 r1).map (fun x => (0:ℚ) * x)) = r1 := by
  intro r1
  induction r1 with
  | nil => intro r2 h; simp
  | cons a tl ih =>
    intro r2 h
    cases r2 with
    | nil => simp at h
    | cons b tl2 =>
      simp only [List.zipWith_cons_cons, List.map_cons]
      rw [ih tl2 (by simpa using h)]
      simp

theorem rowInterp_one : ∀ (r1 r2 : List ℚ), r1.length = r2.length →
    List.zipWith (· + ·) r1
      ((List.zipWith (fun x y => x - y) r2 r1).map (fun x => (1:ℚ) * x)) = r2 := by
  intro r1
  induction r1 with
  | nil =>
    intro r2 h
    rw [List.length_nil, eq_comm, List.length_eq_zero] at h
    subst h
    rfl
  | cons a tl ih =>
    intro r2 h
    cases r2 with
    | nil => simp at h
    | cons b tl2 =>
      simp only [List.zipWith_cons_cons, List.map_cons]
      rw [ih tl2 (by simpa using h)]
      congr 1
      ring

theorem matInterp_zero {y1 y2 : List (List ℚ)} (h : sameShape y1 y2) :
    matAdd y1 (matSmul 0 (matSub y2 y1)) = y1 := by
  induction h with
  | nil => rfl
  | cons h1 h2 ih =>
    simp only [matAdd, matSub, matSmul, List.zipWith_cons_cons,
      List.map_cons] at ih ⊢
    rw [rowInterp_zero _ _ h1, ih]

theorem matInterp_one {y1 y2 : List (List ℚ)} (h : sameShape y1 y2) :
    matAdd y1 (matSmul 1 (matSub y2 y1)) = y2 := by
  induction h with
  | nil => rfl
  | cons h1 h2 ih =>
    simp only [matAdd, matSub, matSmul, List.zipWith_cons_cons,
      List.map_cons] at ih ⊢
    rw [rowInterp_one _ _ h1, ih]

theorem getD_mem_of_lt (l : List ℚ) (k : Nat) (hk : k < l.length) (d : ℚ) :
    l.getD k d ∈ l := by
  rw [List.getD_eq_getElem?_getD, List.getElem?_eq_getElem hk]
  exact List.getElem_mem hk

/-- Evaluating the piecewise-linear interpolation exactly at the `k`-th
tabulated node returns the `k`-th tabulated matrix with zero
interpolation error. -/
theorem interpCube_at_node :
    ∀ (xs : List ℚ) (ys : List (List (List ℚ))),
      xs.Sorted (· < ·) → ys.length = xs.length → ys.Chain' sameShape →
      ∀ k, k < xs.length → interpCube xs ys (xs.getD k 0) = ys.getD k [] := by
  intro xs
  induction xs with
  | nil => intro ys _ _ _ k hk; exact absurd hk (Nat.not_lt_zero k)
  | cons x1 xtl ih =>
    intro ys hsort hlen hchain k hk
    cases ys with
    | nil => simp at hlen
    | cons y1 ytl =>
      cases xtl with
      | nil =>
        have hy : ytl = [] := by simpa [List.length_eq_zero] using hlen
        subst hy
        have hk0 : k = 0 := Nat.lt_one_iff.mp (by simpa using hk)
        subst hk0
        rfl
      | cons x2 xtl2 =>
        cases ytl with
        | nil => simp at hlen
        | cons y2 ytl2 =>
          have hx12 : x1 < x2 :=
            (List.sorted_cons.mp hsort).1 x2 (List.mem_cons_self _ _)
          have hsort2 : (x2 :: xtl2).Sorted (· < ·) :=
            (List.sorted_cons.mp hsort).2
          have hlen2 : (y2 :: ytl2).length = (x2 :: xtl2).length := by
            simpa using hlen
          have hshape12 : sameShape y1 y2 := (List.chain'_cons.mp hchain).1
          have hchain2 : (y2 :: ytl2).Chain' sameShape :=
            (List.chain'_cons.mp hchain).2
          cases k with
          | zero =>
            simp only [List.getD_cons_zero]
            simp only [interpCube]
            rw [if_pos (le_of_lt hx12), sub_self, zero_div]
            exact matInterp_zero hshape12
          | succ k2 =>
            cases k2 with
            | zero =>
              simp only [List.getD_cons_succ, List.getD_cons_zero]
              simp only [interpCube]
              rw [if_pos (le_refl x2),
                div_self (sub_ne_zero.mpr (ne_of_gt hx12))]
              exact matInterp_one hshape12
            | succ k3 =>
              have hk3 : k3 < xtl2.length := by
                simpa [Nat.succ_lt_succ_iff] using hk
              have hmem : xtl2.getD k3 0 ∈ xtl2 := getD_mem_of_lt _ _ hk3 _
              have hx2v : x2 < xtl2.getD k3 0 :=
                (List.sorted_cons.mp hsort2).1 _ hmem
              simp only [List.getD_cons_succ]
              simp only [interpCube]
              rw [if_neg (not_le.mpr hx2v)]
              have := ih (y2 :: ytl2) hsort2 hlen2 hchain2 (k3 + 1)
                (by simpa [Nat.succ_lt_succ_iff] using hk)
              simpa [List.getD_cons_succ] using this

theorem getLastD_eq_getD :
    ∀ (l : List ℚ), l ≠ [] → ∀ (d d2 : ℚ),
      l.getLastD d = l.getD (l.length - 1) d2 := by
  intro l
  induction l with
  | nil => intro h; exact absurd rfl h
  | cons a tl ih =>
    intro _ d d2
    cases tl with
    | nil => rfl
    | cons b tl2 =>
      rw [List.getLastD_cons, ih (by simp) a d2]
      simp [List.getD_cons_succ]

/-- Same statement for lists of emission matrices (used to relate the
boundary node of the emission table to its last entry). -/
theorem getLastD_eq_getD_mat :
    ∀ (l : List (List (List ℚ))), l ≠ [] → ∀ (d d2 : List (List ℚ)),
      l.getLastD d = l.getD (l.length - 1) d2 := by
  intro l
  induction l with
  | nil => intro h; exact absurd rfl h
  | cons a tl ih =>
    intro _ d d2
    cases tl with
    | nil => rfl
    | cons b tl2 =>
      rw [List.getLastD_cons, ih (by simp) a d2]
      simp [List.getD_cons_succ]

theorem headD_le_getD_of_sorted (xs : List ℚ) (hsort : xs.Sorted (· < ·))
    (k : Nat) (hk : k < xs.length) : xs.headD 0 ≤ xs.getD k 0 := by
  cases xs with
  | nil => simp at hk
  | cons x1 xtl =>
    cases k with
    | zero => simp
    | succ k2 =>
      have hk2 : k2 < xtl.length := by simpa using hk
      have hmem : xtl.getD k2 0 ∈ xtl := getD_mem_of_lt _ _ hk2 _
      simpa using le_of_lt ((List.sorted_cons.mp hsort).1 _ hmem)

theorem getD_le_getLastD_of_sorted :
    ∀ (xs : List ℚ), xs.Sorted (· < ·) →
      ∀ k, k < xs.length → xs.getD k 0 ≤ xs.getLastD 0 := by
  intro xs
  induction xs with
  | nil => intro _ k hk; simp at hk
  | cons x1 xtl ih =>
    intro hsort k hk
    cases xtl with
    | nil =>
      have hk0 : k = 0 := Nat.lt_one_iff.mp (by simpa using hk)
      subst hk0
      simp [List.getLastD]
    | cons x2 xtl2 =>
      have hsort2 : (x2 :: xtl2).Sorted (· < ·) := (List.sorted_cons.mp hsort).2
      have hdef : (x2 :: xtl2).getLastD x1 = (x2 :: xtl2).getLastD 0 := by
        rw [getLastD_eq_getD _ (by simp) x1 0, getLastD_eq_getD _ (by simp) 0 0]
      rw [List.getLastD_cons, hdef]
      cases k with
      | zero =>
        have hlast : (x2 :: xtl2).getLastD 0 ∈ (x2 :: xtl2) := by
          rw [getLastD_eq_getD _ (by simp) 0 0]
          exact getD_mem_of_lt _ _ (by simp) _
        simpa using le_of_lt ((List.sorted_cons.mp hsort).1 _ hlast)
      | succ k2 =>
        have hk2 : k2 < (x2 :: xtl2).length := by simpa using hk
        simpa using ih hsort2 k2 hk2

/-- C7: `DustGrains.interpol_emission` (lines 710–724) clamps requests
below (above) the tabulated field-strength range to the first (last)
node, returning that node's tabulated emission and recording the clamped
value in `RF_strength`; a request exactly equal to any tabulated node
returns that node's tabulated emission exactly. -/
theorem C7_interpolation_boundary (d : DustGrainsQ) (xs : List ℚ)
    (hx : d.ISRF_field_strengths = xs) (hne : xs ≠ [])
    (hsort : xs.Sorted (· < ·)) (hlen : d.emission.length = xs.length)
    (hchain : d.emission.Chain' sameShape) :
    (∀ v, v < xs.headD 0 →
        d.interpol_emission v =
          ({ d with RF_strength := xs.headD 0 }, d.emission.headD []))
      ∧ (∀ v, xs.getLastD 0 < v →
          d.interpol_emission v =
            ({ d with RF_strength := xs.getLastD 0 }, d.emission.getLastD []))
      ∧ (∀ k, k < xs.length →
          (d.interpol_emission (xs.getD k 0)).2 = d.emission.getD k []) := by
  have hpos : 0 < xs.length := List.length_pos.mpr hne
  have hyne : d.emission ≠ [] := by
    intro h
    rw [h] at hlen
    rw [← hlen] at hpos
    exact absurd hpos (by simp)
  have hnode := interpCube_at_node xs d.emission hsort hlen hchain
  refine ⟨?_, ?_, ?_⟩
  · intro v hv
    have h0 : xs.headD 0 = xs.getD 0 0 := by
      cases xs with
      | nil => exact absurd rfl hne
      | cons a tl => rfl
    have hy0 : d.emission.headD [] = d.emission.getD 0 [] := by
      cases hE : d.emission with
      | nil => exact absurd hE hyne
      | cons a tl => rfl
    simp only [DustGrainsQ.interpol_emission, hx]
    rw [if_pos hv, h0, hy0, hnode 0 hpos]
  · intro v hv
    have hhl : xs.headD 0 ≤ xs.getLastD 0 := by
      rw [getLastD_eq_getD xs hne 0 0]
      exact headD_le_getD_of_sorted xs hsort (xs.length - 1) (by omega)
    have hnv : ¬ v < xs.headD 0 := not_lt.mpr (le_of_lt (lt_of_le_of_lt hhl hv))
    simp only [DustGrainsQ.interpol_emission, hx]
    rw [if_neg hnv, if_pos hv, getLastD_eq_getD xs hne 0 0,
      getLastD_eq_getD_mat d.emission hyne [] [], hlen,
      hnode (xs.length - 1) (by omega)]
  · intro k hk
    have hnv : ¬ xs.getD k 0 < xs.headD 0 :=
      not_lt.mpr (headD_le_getD_of_sorted xs hsort k hk)
    have hnv2 : ¬ xs.getD k 0 > xs.getLastD 0 :=
      not_lt.mpr (getD_le_getLastD_of_sorted xs hsort k hk)
    simp only [DustGrainsQ.interpol_emission, hx]
    rw [if_neg hnv, if_neg hnv2]
    exact hnode k hk

theorem C7_interpolation_boundary_witness :
    dgW.interpol_emission 0 = ({ dgW with RF_strength := 1 }, [[1, 1]]) ∧
      dgW.interpol_emission 3 = ({ dgW with RF_strength := 2 }, [[2, 2]]) ∧
      (dgW.interpol_emission 2).2 = [[2, 2]] := by
  have h := C7_interpolation_boundary dgW [1, 2] rfl (by simp)
    (by norm_num [List.sorted_cons]) rfl
    (by
      refine List.chain'_cons.mpr ⟨?_, List.chain'_singleton _⟩
      exact List.Forall₂.cons (by simp) List.Forall₂.nil)
  refine ⟨?_, ?_, ?_⟩
  · simpa [dgW] using h.1 0 (by norm_num)
  · simpa [dgW] using h.2.1 3 (by norm_num)
  · simpa [dgW] using h.2.2 1 (by norm_num)

/-! ## C3: the composition aggregator (`DustModel.py`, `eff_grain_props`)

One per-component result record, mirroring the 9-tuple that
`DustModel.eff_grain_props` (lines 68–113) unpacks from each component:
indices 0–3 are cabs/csca/natoms/emission, index 5 the per-composition
asymmetry, indices 6–8 the albedo- and g-grid cross sections. -/
structure CompResults where
  tcabs : List ℚ
  tcsca : List ℚ
  tnatoms : List (String × ℚ)
  temission : List ℚ
  tg : List ℚ
  tscat_a_cext : List ℚ
  tscat_a_csca : List ℚ
  tscat_g_csca : List ℚ
deriving Inhabited

/-- The `_cabs += _tcabs` accumulation pattern of lines 70–101: start
from `np.zeros(n)` and add each component's array elementwise. -/
def aggSum (n : Nat) (ls : List (List ℚ)) : List ℚ :=
  ls.foldl (fun acc l => List.zipWith (· + ·) acc l) (List.replicate n 0)

/-- One step of the abundance-dictionary accumulation of lines 104–109:
add to an existing key, or append a new one. -/
def addNatom (acc : List (String × ℚ)) (nm : String) (v : ℚ) :
    List (String × ℚ) :=
  if acc.any (fun p => decide (p.1 = nm)) then
    acc.map (fun p => if p.1 = nm then (p.1, p.2 + v) else p)
  else acc ++ [(nm, v)]

def mergeNatoms (acc : List (String × ℚ)) (tn : List (String × ℚ)) :
    List (String × ℚ) :=
  tn.foldl (fun a p => addNatom a p.1 p.2) acc

/-- The aggregate record returned by `DustModel.eff_grain_props`
(line 111–113): summed cross sections, merged abundances, summed
emission, and the two final ratios `_scat_a_csca/_scat_a_cext` and
`_g/_scat_g_csca`, computed with unguarded numpy division. -/
structure AggResults where
  cabs : List ℚ
  csca : List ℚ
  natoms : List (String × ℚ)
  emission : List ℚ
  albedo : List (Option ℚ)
  g : List (Option ℚ)

/-- `DustModel.eff_grain_props` (`DustModel.py` lines 68–113).  The
accumulator arrays are zero-initialized with the first component's
lengths (lines 70–78); the `_g` accumulator adds `_tscat_g_csca*_tg`
(line 100). -/
def DustModel_eff (comps : List CompResults) : AggResults :=
  let c0 := comps.headD default
  { cabs := aggSum c0.tcabs.length (comps.map (·.tcabs))
    csca := aggSum c0.tcabs.length (comps.map (·.tcsca))
    natoms := comps.foldl (fun acc c => mergeNatoms acc c.tnatoms) []
    emission := aggSum c0.temission.length (comps.map (·.temission))
    albedo := List.zipWith npDiv
      (aggSum c0.tscat_a_cext.length (comps.map (·.tscat_a_csca)))
      (aggSum c0.tscat_a_cext.length (comps.map (·.tscat_a_cext)))
    g := List.zipWith npDiv
      (aggSum c0.tscat_g_csca.length
        (comps.map (fun c => List.zipWith (· * ·) c.tscat_g_csca c.tg)))
      (aggSum c0.tscat_g_csca.length (comps.map (·.tscat_g_csca))) }

/-- Single-component record whose albedo- and g-grid integrated cross
sections vanish at the only wavelength point (e.g. the all-zero size
distribution of the spec's zero-input property). -/
def c00 : CompResults :=
  { tcabs := [], tcsca := [], tnatoms := [], temission := []
    tg := [0], tscat_a_cext := [0], tscat_a_csca := [0], tscat_g_csca := [0] }

/-- C3 counterexample: with a zero summed denominator at a wavelength,
`DustModel.eff_grain_props` produces a non-finite albedo (numpy `0/0`,
modelled as `none`) — not the claimed guarded zero; the asymmetry ratio
degenerates identically. -/
theorem C3_zero_denominator_counterexample :
    (DustModel_eff [c00]).albedo = [none] ∧
      (DustModel_eff [c00]).g = [none] ∧
      (DustModel_eff [c00]).albedo ≠ [some 0] := by
  refine ⟨?_, ?_, ?_⟩ <;>
    norm_num [DustModel_eff, c00, aggSum, npDiv] <;>
    exact fun h => Option.noConfusion h

theorem zipWith_getD_of_lt {β : Type} (f : ℚ → ℚ → β) (a b : List ℚ)
    (i : Nat) (d : β) (ha : i < a.length) (hb : i < b.length) :
    (List.zipWith f a b).getD i d = f (a.getD i 0) (b.getD i 0) := by
  rw [List.getD_eq_getElem?_getD, List.getElem?_zipWith,
    List.getD_eq_getElem?_getD, List.getElem?_eq_getElem ha,
    List.getD_eq_getElem?_getD, List.getElem?_eq_getElem hb]
  rfl

theorem foldl_zipWith_length :
    ∀ (ls : List (List ℚ)) (acc : List ℚ),
      (∀ l ∈ ls, l.length = acc.length) →
      (ls.foldl (fun a l => List.zipWith (· + ·) a l) acc).length =
        acc.length := by
  intro ls
  induction ls with
  | nil => intro acc _; rfl
  | cons l tl ih =>
    intro acc h
    have hl : l.length = acc.length := h l (List.mem_cons_self _ _)
    have hz : (List.zipWith (· + ·) acc l).length = acc.length := by
      rw [List.length_zipWith]; omega
    rw [List.foldl_cons, ih (List.zipWith (· + ·) acc l)
      (fun x hx => by rw [hz]; exact h x (List.mem_cons_of_mem _ hx)), hz]

theorem foldl_zipWith_getD :
    ∀ (ls : List (List ℚ)) (acc : List ℚ) (i : Nat), i < acc.length →
      (∀ l ∈ ls, l.length = acc.length) →
      (ls.foldl (fun a l => List.zipWith (· + ·) a l) acc).getD i 0 =
        acc.getD i 0 + (ls.map (fun l => l.getD i 0)).sum := by
  intro ls
  induction ls with
  | nil => intro acc i hi _; simp
  | cons l tl ih =>
    intro acc i hi h
    have hl : l.length = acc.length := h l (List.mem_cons_self _ _)
    have hz : (List.zipWith (· + ·) acc l).length = acc.length := by
      rw [List.length_zipWith]; omega
    rw [List.foldl_cons,
      ih (List.zipWith (· + ·) acc l) i (by omega)
        (fun x hx => by rw [hz]; exact h x (List.mem_cons_of_mem _ hx)),
      zipWith_getD_of_lt _ _ _ _ _ hi (by omega), List.map_cons,
      List.sum_cons]
    ring

theorem aggSum_length (n : Nat) (ls : List (List ℚ))
    (h : ∀ l ∈ ls, l.length = n) : (aggSum n ls).length = n := by
  unfold aggSum
  rw [foldl_zipWith_length ls _ (by simpa using h)]
  exact List.length_replicate n 0

theorem aggSum_getD (n : Nat) (ls : List (List ℚ))
    (h : ∀ l ∈ ls, l.length = n) (i : Nat) (hi : i < n) :
    (aggSum n ls).getD i 0 = (ls.map (fun l => l.getD i 0)).sum := by
  unfold aggSum
  rw [foldl_zipWith_getD ls _ i (by simpa using hi) (by simpa using h)]
  have : (List.replicate n (0:ℚ)).getD i 0 = 0 := by
    rw [List.getD_eq_getElem?_getD,
      List.getElem?_eq_getElem (by simpa using hi)]
    simp
  rw [this, zero_add]

/-- C3 amended: `DustModel.eff_grain_props` computes the aggregate albedo
as the summed scattering cross section over the summed extinction cross
section per wavelength on the albedo grid, but performs the division
unguarded (line 112): where the summed denominator is nonzero the ratio
is the finite quotient, and where it is exactly zero the result is
non-finite (numpy NaN/inf, modelled `none`), not zero.  The
zero-denominator guard the claim describes exists only per composition,
in `DustGrains.eff_grain_props` (`dustgrains.py` lines 655–664 for the
albedo and 697–704 for the asymmetry), where a zero integrated
denominator yields exactly zero. -/
theorem C3_albedo_guard_amended (comps : List CompResults) (i : Nat)
    (hi : i < (comps.headD default).tscat_a_cext.length)
    (hce : ∀ c ∈ comps, c.tscat_a_cext.length =
      (comps.headD default).tscat_a_cext.length)
    (hcs : ∀ c ∈ comps, c.tscat_a_csca.length =
      (comps.headD default).tscat_a_cext.length) :
    ((comps.map (fun c => c.tscat_a_cext.getD i 0)).sum = 0 →
        (DustModel_eff comps).albedo.getD i (some 0) = none)
      ∧ ((comps.map (fun c => c.tscat_a_cext.getD i 0)).sum ≠ 0 →
        (DustModel_eff comps).albedo.getD i (some 0) =
          some ((comps.map (fun c => c.tscat_a_csca.getD i 0)).sum /
            (comps.map (fun c => c.tscat_a_cext.getD i 0)).sum))
      ∧ (∀ (dg : DustGrainsQ) (j : Nat), j < dg.albedo.length →
          dg.effscat_a_cext.getD j 0 = 0 → dg.albedo.getD j 0 = 0)
      ∧ (∀ (dg : DustGrainsQ) (j : Nat), j < dg.effg.length →
          dg.effscat_g_csca.getD j 0 = 0 → dg.effg.getD j 0 = 0) := by
  have hmcs : ∀ l ∈ comps.map (·.tscat_a_csca),
      l.length = (comps.headD default).tscat_a_cext.length := by
    intro l hl
    obtain ⟨c, hc, rfl⟩ := List.mem_map.mp hl
    exact hcs c hc
  have hmce : ∀ l ∈ comps.map (·.tscat_a_cext),
      l.length = (comps.headD default).tscat_a_cext.length := by
    intro l hl
    obtain ⟨c, hc, rfl⟩ := List.mem_map.mp hl
    exact hce c hc
  have key : (DustModel_eff comps).albedo.getD i (some 0) =
      npDiv ((comps.map (fun c => c.tscat_a_csca.getD i 0)).sum)
        ((comps.map (fun c => c.tscat_a_cext.getD i 0)).sum) := by
    simp only [DustModel_eff]
    rw [zipWith_getD_of_lt npDiv _ _ i (some 0)
        (by rw [aggSum_length _ _ hmcs]; exact hi)
        (by rw [aggSum_length _ _ hmce]; exact hi),
      aggSum_getD _ _ hmcs i hi, aggSum_getD _ _ hmce i hi,
      List.map_map, List.map_map]
    rfl
  refine ⟨?_, ?_, ?_, ?_⟩
  · intro hz
    rw [key, hz]
    simp [npDiv]
  · intro hz
    rw [key, npDiv, if_neg hz]
  · intro dg j hj h0
    have hj1 : j < dg.effscat_a_cext.length := by
      rw [DustGrainsQ.albedo, List.length_zipWith] at hj
      omega
    have hj2 : j < dg.effscat_a_csca.length := by
      rw [DustGrainsQ.albedo, List.length_zipWith] at hj
      omega
    rw [DustGrainsQ.albedo, zipWith_getD_of_lt _ _ _ j 0 hj1 hj2, if_pos h0]
  · intro dg j hj h0
    have hj1 : j < dg.effscat_g_csca.length := by
      rw [DustGrainsQ.effg, List.length_zipWith] at hj
      omega
    have hj2 : j < dg.effgnum.length := by
      rw [DustGrainsQ.effg, List.length_zipWith] at hj
      omega
    rw [DustGrainsQ.effg, zipWith_getD_of_lt _ _ _ j 0 hj1 hj2, if_pos h0]

/-- Single-component record with nonzero albedo-grid cross sections. -/
def c01 : CompResults :=
  { tcabs := [], tcsca := [], tnatoms := [], temission := []
    tg := [0], tscat_a_cext := [2], tscat_a_csca := [1], tscat_g_csca := [1] }

theorem C3_albedo_guard_amended_witness :
    (([c01].map (fun c => c.tscat_a_cext.getD 0 0)).sum = 0 →
        (DustModel_eff [c01]).albedo.getD 0 (some 0) = none)
      ∧ (([c01].map (fun c => c.tscat_a_cext.getD 0 0)).sum ≠ 0 →
        (DustModel_eff [c01]).albedo.getD 0 (some 0) =
          some (([c01].map (fun c => c.tscat_a_csca.getD 0 0)).sum /
            ([c01].map (fun c => c.tscat_a_cext.getD 0 0)).sum))
      ∧ (∀ (dg : DustGrainsQ) (j : Nat), j < dg.albedo.length →
          dg.effscat_a_cext.getD j 0 = 0 → dg.albedo.getD j 0 = 0)
      ∧ (∀ (dg : DustGrainsQ) (j : Nat), j < dg.effg.length →
          dg.effscat_g_csca.getD j 0 = 0 → dg.effg.getD j 0 = 0) :=
  C3_albedo_guard_amended [c01] 0 (by norm_num [c01])
    (by intro c hc; rw [List.mem_singleton] at hc; subst hc; rfl)
    (by intro c hc; rw [List.mem_singleton] at hc; subst hc; norm_num [c01])
